import Mathlib

/-!
Verification development for the arbok_driver sequence-tree compiler and
parameter-sweep engine.  The repository ships only documentation notebooks
for the engine itself, so the engine's data model and operations are
modelled from the specification (spec.md), refined by the behaviour the
tutorial notebooks under docs/ describe.  Numeric parameter values are
modelled as rationals so that every encoding decision is exact and
decidable.
-/

namespace Arbok

/-- Modelled from the spec: §3 Parameter type tags (`Voltage`, `Time`,
`String`, `List` from `arbok_driver.parameter_types`). -/
inductive PType where
  | voltage
  | time
  | str
  | list
deriving Repr, DecidableEq

/-- Modelled from the spec: §3 Sweep Axis — whether a parameter type can
carry an arithmetic-progression (start, step) encoded sweep ("the
Parameter's owning type supports it"): numeric types can, string and
list types cannot. -/
def PType.supportsAP : PType → Bool
  | .voltage => true
  | .time => true
  | .str => false
  | .list => false

/-- Modelled from the spec: §3 configuration values are scalars (numbers
or strings) or lists of strings (element labels). -/
inductive ConfVal where
  | num (q : ℚ)
  | str (s : String)
  | strList (ss : List String)
deriving Repr, DecidableEq

/-- Modelled from the spec: §3 Parameter — a named, unit-aware, typed
scalar value owned by a sequence node. -/
structure Parameter where
  name : String
  ptype : PType
  value : ConfVal
deriving Repr, DecidableEq

/-- A sweep axis: an ordered list of (Parameter, array-of-values) pairs
(spec §3 Sweep Axis). -/
abbrev SweepAxis := List (Parameter × List ℚ)

/-- Consecutive differences of a value array. -/
def diffs : List ℚ → List ℚ
  | a :: b :: rest => (b - a) :: diffs (b :: rest)
  | _ => []

/-- Arithmetic mean of a list of rationals (0 on the empty list). -/
def mean (xs : List ℚ) : ℚ := xs.sum / xs.length

/-- Population variance of a list of rationals (0 on the empty list). -/
def variance (xs : List ℚ) : ℚ :=
  (xs.map (fun x => (x - mean xs) ^ 2)).sum / xs.length

/-- How a swept value array is encoded on the device: as an
arithmetic progression (start, step) or as an explicit indexed array. -/
inductive Encoding where
  | apEnc (start step : ℚ)
  | explicitArr (values : List ℚ)
deriving Repr, DecidableEq

/-- A user-visible warning emitted when an arithmetic-progression
encoding is chosen, naming the parameter and the chosen (start, step)
(spec §4.3 / §6 Warnings channel). -/
structure SweepWarning where
  paramName : String
  start : ℚ
  step : ℚ
deriving Repr, DecidableEq

/-- The condition on a single (Parameter, array) pair under which
spec §3 predicts arithmetic-progression encoding: length at least 3,
variance of consecutive differences below one tenth of the mean step,
and a parameter type that supports the encoding. -/
def apCondition (p : Parameter) (arr : List ℚ) : Prop :=
  3 ≤ arr.length ∧ variance (diffs arr) < mean (diffs arr) / 10 ∧
    p.ptype.supportsAP = true

instance (p : Parameter) (arr : List ℚ) : Decidable (apCondition p arr) := by
  unfold apCondition; infer_instance

/-- Modelled from the spec: §3 Sweep Axis encoding decision, refined by
docs/1_parameterizing_sequences.ipynb ("For multi param sweeps, arrays
are always defined explicitly"): a pair is encoded as (start, step) only
when its axis holds exactly one parameter and `apCondition` holds;
otherwise the explicit array is kept.  `axisParamCount` is the number of
(Parameter, array) pairs on the axis. -/
def chooseEncoding (axisParamCount : Nat) (p : Parameter) (arr : List ℚ) : Encoding :=
  if axisParamCount = 1 ∧ apCondition p arr then
    .apEnc (arr.headD 0) (mean (diffs arr))
  else
    .explicitArr arr

/-- Encode one (Parameter, array) pair of an axis, together with the
warnings this emits: exactly one warning naming the parameter when the
arithmetic-progression encoding is chosen, none otherwise
(spec §4.3). -/
def encodePair (axisParamCount : Nat) (p : Parameter) (arr : List ℚ) :
    Encoding × List SweepWarning :=
  if axisParamCount = 1 ∧ apCondition p arr then
    (.apEnc (arr.headD 0) (mean (diffs arr)),
     [⟨p.name, arr.headD 0, mean (diffs arr)⟩])
  else
    (.explicitArr arr, [])

/-- Encode a whole axis: every pair is encoded with `encodePair`, and the
emitted warnings are collected in order. -/
def encodeAxis (axis : SweepAxis) : List (Parameter × Encoding) × List SweepWarning :=
  (axis.map fun pr => (pr.1, (encodePair axis.length pr.1 pr.2).1),
   (axis.map fun pr => (encodePair axis.length pr.1 pr.2).2).flatten)

/-- Discriminator: is an encoding the arithmetic-progression one? -/
def Encoding.isAP : Encoding → Bool
  | .apEnc _ _ => true
  | .explicitArr _ => false

theorem encodePair_fst (n : ℕ) (p : Parameter) (arr : List ℚ) :
    (encodePair n p arr).1 = chooseEncoding n p arr := by
  unfold encodePair chooseEncoding
  split <;> rfl

/-- A concrete voltage parameter used in concrete encoding scenarios. -/
def ampParam : Parameter := ⟨"amplitude", .voltage, .num (1/2)⟩

/-- A second concrete parameter sharing an axis with `ampParam`. -/
def timeParam : Parameter := ⟨"t_square_pulse", .time, .num 100⟩

/-- The tutorial's constant-step array [0.1, 0.2, 0.3, 0.4]. -/
def constStepArr : List ℚ := [1/10, 2/10, 3/10, 4/10]

/-- A constant-step time array [10, 20, 30, 40]. -/
def timeArr : List ℚ := [10, 20, 30, 40]

/-- A two-parameter axis in which both arrays are perfect arithmetic
progressions. -/
def twoParamAxis : SweepAxis := [(ampParam, constStepArr), (timeParam, timeArr)]

theorem apCondition_ampConst : apCondition ampParam constStepArr := by
  refine ⟨by norm_num [constStepArr], ?_, rfl⟩
  norm_num [variance, mean, diffs, constStepArr]

/-- C1 (counterexample): the claim's per-pair iff fails on a
two-parameter axis.  The pair (amplitude, [0.1, 0.2, 0.3, 0.4]) has
length ≥ 3, zero variance of consecutive differences and a supporting
type, yet on a two-parameter axis the encoder keeps the explicit array,
so "AP encoding is chosen iff the pair satisfies the threshold
condition" is false. -/
theorem c1_counterexample :
    ¬ (((encodePair twoParamAxis.length ampParam constStepArr).1.isAP = true) ↔
        apCondition ampParam constStepArr) := by
  intro h
  have h2 := h.mpr apCondition_ampConst
  simp [twoParamAxis, encodePair, Encoding.isAP] at h2

/-- C1 (amended): for every sweep axis and every (Parameter, array)
pair in it, the encoder chooses arithmetic-progression (start, step)
encoding iff the axis holds exactly one pair, the array has length at
least 3, the variance of its consecutive differences is smaller than
one tenth of the mean step, and the parameter's type supports it; when
chosen, exactly one warning naming the parameter and the chosen
(start, step) is emitted for the pair, and otherwise the pair is
encoded as the explicit array with no warning. -/
theorem c1_ap_encoding_per_pair (axis : SweepAxis) (pr : Parameter × List ℚ)
    (hmem : pr ∈ axis) :
    ((encodePair axis.length pr.1 pr.2).1.isAP = true ↔
      (axis.length = 1 ∧ apCondition pr.1 pr.2))
    ∧ ((encodePair axis.length pr.1 pr.2).1.isAP = true →
        encodePair axis.length pr.1 pr.2 =
          (.apEnc (pr.2.headD 0) (mean (diffs pr.2)),
            [⟨pr.1.name, pr.2.headD 0, mean (diffs pr.2)⟩]))
    ∧ ((encodePair axis.length pr.1 pr.2).1.isAP = false →
        encodePair axis.length pr.1 pr.2 = (.explicitArr pr.2, []))
    ∧ (pr.1, (encodePair axis.length pr.1 pr.2).1) ∈ (encodeAxis axis).1 := by
  by_cases h : axis.length = 1 ∧ apCondition pr.1 pr.2
  · refine ⟨?_, ?_, ?_, ?_⟩
    · simp [encodePair, h, Encoding.isAP]
    · intro _; simp [encodePair, h]
    · intro hfalse; simp [encodePair, h, Encoding.isAP] at hfalse
    · simp only [encodeAxis, List.mem_map]
      exact ⟨pr, hmem, rfl⟩
  · refine ⟨?_, ?_, ?_, ?_⟩
    · simp [encodePair, h, Encoding.isAP]
    · intro htrue; simp [encodePair, h, Encoding.isAP] at htrue
    · intro _; simp [encodePair, h]
    · simp only [encodeAxis, List.mem_map]
      exact ⟨pr, hmem, rfl⟩

/-- C1 witness: on the singleton axis holding (amplitude,
[0.1, 0.2, 0.3, 0.4]) the encoder chooses the AP encoding. -/
theorem c1_ap_encoding_per_pair_witness :
    (encodePair (1 : ℕ) ampParam constStepArr).1.isAP = true :=
  (c1_ap_encoding_per_pair [(ampParam, constStepArr)] (ampParam, constStepArr)
    (by simp)).1.mpr ⟨rfl, apCondition_ampConst⟩

/-- C2 (counterexample): the encoding choice is not a function of the
(Parameter, array) pair alone.  The pair (amplitude, [0.1, 0.2, 0.3,
0.4]) is AP-encoded on its own axis but explicitly encoded on the
two-parameter axis, so no per-pair decision function reproduces the
axis encoder. -/
theorem c2_counterexample :
    ¬ ∃ f : Parameter × List ℚ → Encoding,
        ∀ axis : SweepAxis,
          (encodeAxis axis).1 = axis.map fun pr => (pr.1, f pr) := by
  rintro ⟨f, hf⟩
  have h1 := hf [(ampParam, constStepArr)]
  have h2 := hf twoParamAxis
  simp [encodeAxis, twoParamAxis, encodePair, apCondition_ampConst] at h1 h2
  rw [← h2.1] at h1
  simp at h1

/-- C2 (amended): the encoding choice for a pair is determined by the
pair together with the number of parameters on its axis: the axis
encoder applies one per-pair decision function of (pair, axis size) to
each pair; the same pair receives the same encoding on any two axes
with equally many pairs; and on an axis with two or more parameters
every pair is encoded as an explicit array. -/
theorem c2_encoding_determined_by_pair_and_axis_size :
    (∀ axis : SweepAxis, (encodeAxis axis).1 =
        axis.map fun pr => (pr.1, chooseEncoding axis.length pr.1 pr.2))
    ∧ (∀ a b : SweepAxis, ∀ pr : Parameter × List ℚ, a.length = b.length →
        chooseEncoding a.length pr.1 pr.2 = chooseEncoding b.length pr.1 pr.2)
    ∧ (∀ axis : SweepAxis, ∀ pr ∈ axis, 2 ≤ axis.length →
        (encodePair axis.length pr.1 pr.2).1 = .explicitArr pr.2) := by
  refine ⟨fun axis => ?_, fun a b pr h => by rw [h], fun axis pr _ h2 => ?_⟩
  · simp [encodeAxis, encodePair_fst]
  · rw [encodePair, if_neg]
    rintro ⟨h1, -⟩
    omega

/-- C2 witness: on the concrete two-parameter axis the amplitude pair is
encoded as an explicit array. -/
theorem c2_witness :
    (encodePair twoParamAxis.length ampParam constStepArr).1 =
      .explicitArr constStepArr :=
  c2_encoding_determined_by_pair_and_axis_size.2.2 twoParamAxis
    (ampParam, constStepArr) (by simp [twoParamAxis]) (by decide)

/-- Modelled from the spec: the fragment of the low-level (QUA-like)
instruction language the compiler emits — sequencing, per-iteration
parameter assignments, pulse operations, variable/stream declarations,
the synchronization pause and the iteration constructs (§4.3, §4.5). -/
inductive QuaStmt where
  | skip
  | seq (a b : QuaStmt)
  | assignIndexed (param : String) (loopVar : String)
  | assignAP (param : String) (start step : ℚ) (loopVar : String)
  | play (opName : String)
  | declareVar (key : String)
  | declareStream (key : String)
  | pause
  | forLoop (loopVar : String) (len : ℕ) (body : QuaStmt)
  | infiniteLoop (body : QuaStmt)
deriving Repr, DecidableEq

/-- Sequence a list of statements. -/
def seqAll (l : List QuaStmt) : QuaStmt := l.foldr .seq .skip

/-- One execution shot of a statement as the list of atomic instructions
it performs, with each iteration construct repeated `len` times (the
perpetual loop contributes a single shot). -/
def unroll : QuaStmt → List QuaStmt
  | .skip => []
  | .seq a b => unroll a ++ unroll b
  | .forLoop _ n body => (List.replicate n (unroll body)).flatten
  | .infiniteLoop body => unroll body
  | s => [s]

/-- `SubStmt s t`: the statement `s` occurs within `t` (reflexively). -/
inductive SubStmt : QuaStmt → QuaStmt → Prop
  | refl (s : QuaStmt) : SubStmt s s
  | seqLeft {s a b} : SubStmt s a → SubStmt s (.seq a b)
  | seqRight {s a b} : SubStmt s b → SubStmt s (.seq a b)
  | inLoop {s v n b} : SubStmt s b → SubStmt s (.forLoop v n b)
  | inInf {s b} : SubStmt s b → SubStmt s (.infiniteLoop b)

theorem SubStmt.trans {a b c : QuaStmt} (hab : SubStmt a b) (hbc : SubStmt b c) :
    SubStmt a c := by
  induction hbc with
  | refl => exact hab
  | seqLeft _ ih => exact .seqLeft ih
  | seqRight _ ih => exact .seqRight ih
  | inLoop _ ih => exact .inLoop ih
  | inInf _ ih => exact .inInf ih

/-- The name of the induction variable allocated for the axis at the
given nesting depth. -/
def loopVarName (depth : ℕ) : String := "i_" ++ toString depth

/-- The common length of an axis's value arrays (0 for an empty axis). -/
def axisLen : SweepAxis → ℕ
  | [] => 0
  | pr :: _ => pr.2.length

/-- The per-iteration assignment for one swept parameter, according to
its chosen encoding: an indexed lookup into the explicit array, or the
`start + i * step` expression of the AP encoding (spec §3/§4.3). -/
def assignStmt (loopVar : String) (p : Parameter) (enc : Encoding) : QuaStmt :=
  match enc with
  | .apEnc start step => .assignAP p.name start step loopVar
  | .explicitArr _ => .assignIndexed p.name loopVar

/-- The block assigning every parameter of an axis at the top of the
axis's loop body, in axis order. -/
def axisAssigns (loopVar : String) (axis : SweepAxis) : QuaStmt :=
  seqAll ((encodeAxis axis).1.map fun pe => assignStmt loopVar pe.1 pe.2)

/-- Modelled from the spec: §4.3 — wrap the tree emission in one
iteration construct per axis, outermost first in declaration order,
each iterating `0 ≤ i < L_axis` and assigning its axis-bound parameters
before the wrapped content. -/
def nestSweeps (depth : ℕ) : List SweepAxis → QuaStmt → QuaStmt
  | [], body => body
  | axis :: rest, body =>
      .forLoop (loopVarName depth) (axisLen axis)
        (.seq (axisAssigns (loopVarName depth) axis)
          (nestSweeps (depth + 1) rest body))

theorem count_flatten_replicate (n : ℕ) (l : List QuaStmt) (s : QuaStmt) :
    ((List.replicate n l).flatten).count s = n * l.count s := by
  induction n with
  | zero => simp
  | succ k ih =>
      simp [List.replicate_succ, List.count_append, ih, Nat.succ_mul, Nat.add_comm]

theorem play_notMem_unroll_assigns (v : String) (axis : SweepAxis) (m : String) :
    QuaStmt.play m ∉ unroll (axisAssigns v axis) := by
  unfold axisAssigns
  generalize (encodeAxis axis).1 = l
  induction l with
  | nil => simp [seqAll, unroll]
  | cons pe rest ih =>
      simp only [List.map_cons, seqAll, List.foldr_cons, unroll, List.mem_append]
      rintro (h | h)
      · cases henc : pe.2 <;> simp [assignStmt, henc, unroll] at h
      · exact ih h

theorem count_unroll_nestSweeps (axes : List SweepAxis) (depth : ℕ)
    (body : QuaStmt) (m : String) :
    (unroll (nestSweeps depth axes body)).count (.play m) =
      (axes.map axisLen).prod * (unroll body).count (.play m) := by
  induction axes generalizing depth with
  | nil => simp [nestSweeps]
  | cons axis rest ih =>
      simp only [nestSweeps, unroll, count_flatten_replicate, List.count_append,
        List.map_cons, List.prod_cons]
      rw [List.count_eq_zero.mpr (play_notMem_unroll_assigns _ axis m), ih]
      ring

theorem nestSweeps_drop_unfold (axes : List SweepAxis) (k : ℕ)
    (hk : k < axes.length) (body : QuaStmt) :
    nestSweeps k (axes.drop k) body =
      .forLoop (loopVarName k) (axisLen axes[k])
        (.seq (axisAssigns (loopVarName k) axes[k])
          (nestSweeps (k + 1) (axes.drop (k + 1)) body)) := by
  rw [List.drop_eq_getElem_cons hk]
  rfl

/-- C3 (confirmed): the sweep scaffolding nests one iteration construct
per axis, outermost first in declaration order: the loop for axis k is a
`forLoop` of length `L_axis k`; each axis's loop occurs inside the
compiled scaffolding; the loop for axis k strictly contains the loop for
axis k+1 (the latter occurs inside the former's body); and the innermost
body executes exactly the product of the per-axis lengths many times. -/
theorem c3_loop_nesting (axes : List SweepAxis) (marker : String) :
    ((unroll (nestSweeps 0 axes (.play marker))).count (.play marker) =
      (axes.map axisLen).prod)
    ∧ (∀ k, (hk : k < axes.length) → ∃ inner,
        nestSweeps k (axes.drop k) (.play marker) =
          .forLoop (loopVarName k) (axisLen axes[k]) inner)
    ∧ (∀ k, k < axes.length →
        SubStmt (nestSweeps k (axes.drop k) (.play marker))
          (nestSweeps 0 axes (.play marker)))
    ∧ (∀ k, k + 1 < axes.length → ∃ v n inner,
        nestSweeps k (axes.drop k) (.play marker) = .forLoop v n inner ∧
          SubStmt (nestSweeps (k + 1) (axes.drop (k + 1)) (.play marker))
            inner) := by
  refine ⟨?_, ?_, ?_, ?_⟩
  · rw [count_unroll_nestSweeps]
    simp [unroll]
  · intro k hk
    exact ⟨_, nestSweeps_drop_unfold axes k hk _⟩
  · intro k
    induction k with
    | zero => intro _; exact .refl _
    | succ j ih =>
        intro hj1
        have hj : j < axes.length := Nat.lt_of_succ_lt hj1
        refine SubStmt.trans ?_ (ih hj)
        rw [nestSweeps_drop_unfold axes j hj]
        exact .inLoop (.seqRight (.refl _))
  · intro k hk1
    have hk : k < axes.length := Nat.lt_of_succ_lt hk1
    refine ⟨_, _, _, nestSweeps_drop_unfold axes k hk _, ?_⟩
    exact .seqRight (.refl _)

/-- A concrete two-axis sweep declaration (amplitude outer, time inner). -/
def sampleAxes : List SweepAxis := [[(ampParam, constStepArr)], [(timeParam, timeArr)]]

/-- C3 witness: on the concrete two-axis declaration, the first axis's
loop statement strictly contains the second axis's loop statement. -/
theorem c3_loop_nesting_witness :
    ∃ v n inner,
      nestSweeps 0 (sampleAxes.drop 0) (.play "body") = .forLoop v n inner ∧
        SubStmt (nestSweeps 1 (sampleAxes.drop 1) (.play "body")) inner :=
  (c3_loop_nesting sampleAxes "body").2.2.2 0 (by decide)

/-- Modelled from the spec: §7 `SweepError` — mismatched array lengths
within an axis, or a swept Parameter not found under the target tree. -/
inductive SweepError where
  | unequalLengths
  | paramNotFound
deriving Repr, DecidableEq

/-- Modelled from the spec: the sweep-relevant state of a
root/measurement node — its name, the Parameters resolved under its
tree, and the currently declared sweep axes. -/
structure MeasurementNode where
  name : String
  params : List Parameter
  sweeps : List SweepAxis
deriving Repr, DecidableEq

/-- All value arrays of an axis have the axis's common length. -/
def axisValid (axis : SweepAxis) : Prop :=
  ∀ pr ∈ axis, pr.2.length = axisLen axis

instance (axis : SweepAxis) : Decidable (axisValid axis) := by
  unfold axisValid; infer_instance

/-- Modelled from the spec: §4.3 `set_sweeps(*axes)` — validate that
arrays within each axis have equal length and that every swept
Parameter exists under the node, then replace the node's sweep
configuration with the given axes; on failure nothing is retained
(all-or-nothing). -/
def set_sweeps (node : MeasurementNode) (axes : List SweepAxis) :
    Except SweepError MeasurementNode :=
  if ∀ axis ∈ axes, axisValid axis then
    if ∀ axis ∈ axes, ∀ pr ∈ axis, pr.1 ∈ node.params then
      .ok { node with sweeps := axes }
    else .error .paramNotFound
  else .error .unequalLengths

/-- The node state after a `set_sweeps` call: the new state on success,
the unchanged previous state on failure. -/
def applySetSweeps (node : MeasurementNode) (axes : List SweepAxis) :
    MeasurementNode :=
  match set_sweeps node axes with
  | .ok next => next
  | .error _ => node

theorem set_sweeps_ok {node : MeasurementNode} {axes : List SweepAxis}
    (h1 : ∀ axis ∈ axes, axisValid axis)
    (h2 : ∀ axis ∈ axes, ∀ pr ∈ axis, pr.1 ∈ node.params) :
    set_sweeps node axes = .ok { node with sweeps := axes } := by
  rw [set_sweeps, if_pos h1, if_pos h2]

theorem unroll_assignStmt_length (v : String) (p : Parameter) (enc : Encoding) :
    (unroll (assignStmt v p enc)).length = 1 := by
  cases enc <;> simp [assignStmt, unroll]

theorem unroll_axisAssigns_length (v : String) (axis : SweepAxis) :
    (unroll (axisAssigns v axis)).length = axis.length := by
  unfold axisAssigns
  have hlen : (encodeAxis axis).1.length = axis.length := by
    simp [encodeAxis]
  rw [← hlen]
  generalize (encodeAxis axis).1 = l
  induction l with
  | nil => simp [seqAll, unroll]
  | cons pe rest ih =>
      simp only [seqAll, List.map_cons, List.foldr_cons, unroll,
        List.length_append, List.length_cons]
      rw [unroll_assignStmt_length]
      simp only [seqAll] at ih
      omega

/-- C4 (confirmed): if two value arrays of some axis passed to
`set_sweeps` have unequal length, the call returns `SweepError` and the
node's sweep configuration is unchanged; an axis whose arrays all have
equal length (and whose parameters exist under the node) is accepted,
replacing the configuration, and its scaffolding is a single loop of
the common length whose body assigns every listed parameter — one
assignment per pair, in lock-step — before the wrapped content. -/
theorem c4_sweep_length_validation (node : MeasurementNode)
    (axes : List SweepAxis) :
    ((∃ axis ∈ axes, ∃ pr1 ∈ axis, ∃ pr2 ∈ axis,
        pr1.2.length ≠ pr2.2.length) →
      set_sweeps node axes = .error .unequalLengths ∧
        applySetSweeps node axes = node)
    ∧ (∀ axis : SweepAxis,
        (∀ pr1 ∈ axis, ∀ pr2 ∈ axis, pr1.2.length = pr2.2.length) →
        (∀ pr ∈ axis, pr.1 ∈ node.params) →
        set_sweeps node [axis] = .ok { node with sweeps := [axis] } ∧
          (∀ body, nestSweeps 0 [axis] body =
            .forLoop (loopVarName 0) (axisLen axis)
              (.seq (axisAssigns (loopVarName 0) axis) body)) ∧
          (unroll (axisAssigns (loopVarName 0) axis)).length = axis.length) := by
  constructor
  · rintro ⟨axis, haxis, pr1, h1, pr2, h2, hne⟩
    have hnot : ¬ ∀ a ∈ axes, axisValid a := by
      intro hall
      exact hne ((hall axis haxis pr1 h1).trans (hall axis haxis pr2 h2).symm)
    constructor
    · rw [set_sweeps, if_neg hnot]
    · rw [applySetSweeps, set_sweeps, if_neg hnot]
  · intro axis hpair hparams
    have hval : axisValid axis := by
      cases axis with
      | nil => intro pr hpr; simp at hpr
      | cons hd tl =>
          intro pr hpr
          exact hpair pr hpr hd (by simp)
    have hvalid : ∀ b ∈ [axis], axisValid b := by
      intro b hb
      rw [List.mem_singleton] at hb
      subst hb
      exact hval
    have hknown : ∀ b ∈ [axis], ∀ pr ∈ b, pr.1 ∈ node.params := by
      intro b hb
      rw [List.mem_singleton] at hb
      subst hb
      exact hparams
    exact ⟨set_sweeps_ok hvalid hknown, fun body => rfl,
      unroll_axisAssigns_length _ _⟩

/-- A parameter used in concrete sweep-validation scenarios. -/
def p1x : Parameter := ⟨"p1", .voltage, .num 0⟩

/-- A second parameter used in concrete sweep-validation scenarios. -/
def p2x : Parameter := ⟨"p2", .voltage, .num 0⟩

/-- The axis {p1: [1,2,3], p2: [1,2]} with unequal array lengths. -/
def badAxis : SweepAxis := [(p1x, [1, 2, 3]), (p2x, [1, 2])]

/-- A measurement node owning `p1x` and `p2x`, with no sweeps declared. -/
def node0 : MeasurementNode := ⟨"measurement", [p1x, p2x], []⟩

/-- C4 witness: the axis {p1: [1,2,3], p2: [1,2]} is rejected with
`SweepError` and the node keeps its previous (empty) configuration. -/
theorem c4_sweep_length_validation_witness :
    set_sweeps node0 [badAxis] = .error .unequalLengths ∧
      applySetSweeps node0 [badAxis] = node0 :=
  (c4_sweep_length_validation node0 [badAxis]).1
    ⟨badAxis, by simp, (p1x, [1, 2, 3]), by simp [badAxis],
      (p2x, [1, 2]), by simp [badAxis], by simp⟩

/-- C10 (confirmed): `set_sweeps` replaces the whole sweep
configuration: after a successful call with axes `A`, a second call
with axes `B` behaves exactly as calling with `B` on the original node,
and a successful second call leaves exactly the axes `B` — a subsequent
compilation builds its loops from `B` alone, with no axes accumulated
from the earlier call. -/
theorem c10_set_sweeps_replaces (node nodeA : MeasurementNode)
    (A B : List SweepAxis) (hA : set_sweeps node A = .ok nodeA) :
    set_sweeps nodeA B = set_sweeps node B ∧
      (∀ nodeB, set_sweeps nodeA B = .ok nodeB →
        nodeB.sweeps = B ∧
          ∀ body, nestSweeps 0 nodeB.sweeps body = nestSweeps 0 B body) := by
  rw [set_sweeps] at hA
  by_cases h1 : ∀ axis ∈ A, axisValid axis
  · rw [if_pos h1] at hA
    by_cases h2 : ∀ axis ∈ A, ∀ pr ∈ axis, pr.1 ∈ node.params
    · rw [if_pos h2] at hA
      have hnodeA : nodeA = { node with sweeps := A } :=
        (Except.ok.injEq _ _).mp hA.symm
      subst hnodeA
      refine ⟨rfl, fun nodeB hB => ?_⟩
      rw [set_sweeps] at hB
      by_cases hb1 : ∀ axis ∈ B, axisValid axis
      · rw [if_pos hb1] at hB
        by_cases hb2 : ∀ axis ∈ B, ∀ pr ∈ axis,
            pr.1 ∈ ({ node with sweeps := A } : MeasurementNode).params
        · rw [if_pos hb2] at hB
          have hnodeB : nodeB = { node with sweeps := B } :=
            (Except.ok.injEq _ _).mp hB.symm
          subst hnodeB
          exact ⟨rfl, fun body => rfl⟩
        · rw [if_neg hb2] at hB
          exact absurd hB (by simp)
      · rw [if_neg hb1] at hB
        exact absurd hB (by simp)
    · rw [if_neg h2] at hA
      exact absurd hA (by simp)
  · rw [if_neg h1] at hA
    exact absurd hA (by simp)

/-- A valid single-parameter axis over `p1x`. -/
def goodAxisA : SweepAxis := [(p1x, [1, 2, 3])]

/-- A valid single-parameter axis over `p2x`. -/
def goodAxisB : SweepAxis := [(p2x, [5, 6])]

/-- C10 witness: calling `set_sweeps` with axis B after a successful
call with axis A gives the same result as calling with B alone. -/
theorem c10_set_sweeps_replaces_witness :
    set_sweeps { node0 with sweeps := [goodAxisA] } [goodAxisB] =
      set_sweeps node0 [goodAxisB] :=
  (c10_set_sweeps_replaces node0 { node0 with sweeps := [goodAxisA] }
    [goodAxisA] [goodAxisB]
    (set_sweeps_ok
      (by intro a ha; rw [List.mem_singleton] at ha; subst ha
          intro pr hpr; rw [goodAxisA, List.mem_singleton] at hpr; subst hpr; rfl)
      (by intro a ha; rw [List.mem_singleton] at ha; subst ha
          intro pr hpr; rw [goodAxisA, List.mem_singleton] at hpr; subst hpr
          simp [node0]))).1

/-- Modelled from the spec: §3 Resource Table — the set of
logical-resource keys (Observable identities) whose low-level
declarations have already been emitted within one compilation pass. -/
abbrev ResourceTable := List String

/-- Modelled from the spec: §4.4 `get_or_create` applied to an
Observable: the first touch declares its backing variable and
data-stream and records the key; a later touch declares nothing. -/
def touchObservable (tbl : ResourceTable) (key : String) :
    ResourceTable × List QuaStmt :=
  if key ∈ tbl then (tbl, [])
  else (key :: tbl, [.declareVar key, .declareStream key])

/-- The emission traversal as the ordered list of Observable keys it
touches (an Observable may be reached through several reference paths,
hence appear several times); every declaration is routed through the
Resource Table. -/
def emitDecls (tbl : ResourceTable) : List String → List QuaStmt
  | [] => []
  | key :: rest =>
      (touchObservable tbl key).2 ++ emitDecls (touchObservable tbl key).1 rest

/-- Modelled from the spec: §5 — each call to compile starts from a
fresh, empty Resource Table, never shared across compilations. -/
def compileDecls (visits : List String) : List QuaStmt :=
  emitDecls [] visits

theorem emitDecls_count (visits : List String) (tbl : ResourceTable)
    (key : String) :
    ((emitDecls tbl visits).count (.declareVar key) =
      if key ∈ visits ∧ key ∉ tbl then 1 else 0) ∧
    ((emitDecls tbl visits).count (.declareStream key) =
      if key ∈ visits ∧ key ∉ tbl then 1 else 0) := by
  induction visits generalizing tbl with
  | nil => simp [emitDecls]
  | cons k rest ih =>
      by_cases hmem : k ∈ tbl
      · have hcond : (key ∈ k :: rest ∧ key ∉ tbl) ↔ (key ∈ rest ∧ key ∉ tbl) := by
          by_cases hk : key = k
          · subst hk; simp [hmem]
          · simp [List.mem_cons, hk]
        simp only [emitDecls, touchObservable, if_pos hmem, List.nil_append]
        rw [(ih tbl).1, (ih tbl).2]
        constructor <;> simp only [hcond]
      · simp only [emitDecls, touchObservable, if_neg hmem, List.count_append]
        rw [(ih (k :: tbl)).1, (ih (k :: tbl)).2]
        by_cases hk : key = k
        · subst hk
          simp [List.count_cons, hmem]
        · simp [List.count_cons, List.mem_cons, hk, Ne.symm hk]

/-- C5 (confirmed): within one compilation pass each Observable's
backing variable declaration and data-stream declaration appear exactly
once in the emitted output — also when the traversal touches the
Observable several times through different reference paths — and a
compile call's declarations are computed from a fresh, empty Resource
Table by definition. -/
theorem c5_resource_uniqueness (visits : List String) (key : String) :
    ((compileDecls visits).count (.declareVar key) =
      if key ∈ visits then 1 else 0)
    ∧ ((compileDecls visits).count (.declareStream key) =
      if key ∈ visits then 1 else 0)
    ∧ compileDecls visits = emitDecls [] visits := by
  refine ⟨?_, ?_, rfl⟩
  · rw [compileDecls, (emitDecls_count visits [] key).1]
    simp
  · rw [compileDecls, (emitDecls_count visits [] key).2]
    simp

/-- Modelled from the spec: §7 `ConfigError` — malformed or ambiguous
parameter configuration. -/
inductive ConfigError where
  | missingType (param : String)
  | valueAndElements (param : String)
  | nameCollision (param : String)
  | missingValue (param : String)
deriving Repr, DecidableEq

/-- Modelled from the spec: §4.1 a declarative parameter spec entry:
an optional scalar `value`, an optional `elements` mapping
(element-name → initial value), and the required `type`. -/
structure ParamSpec where
  value : Option ConfVal
  elements : Option (List (String × ConfVal))
  type : Option PType
deriving Repr, DecidableEq

/-- The name of the per-element Parameter generated for one element of
a multi-element spec: `{base}_{element}`. -/
def elementName (base elem : String) : String := base ++ "_" ++ elem

/-- Modelled from the spec: §4.1 Parameter Config Resolver for one spec
entry.  `existing` is the set of Parameter/attribute names already
present on the owning node.  A scalar `value` yields one Parameter; an
`elements` mapping yields one Parameter per element named
`{base}_{element}`; both keys together, a missing `type`, or a name
collision fail with `ConfigError`. -/
def resolveSpec (existing : List String) (base : String) (s : ParamSpec) :
    Except ConfigError (List Parameter) :=
  match s.type with
  | none => .error (.missingType base)
  | some t =>
    match s.value, s.elements with
    | some _, some _ => .error (.valueAndElements base)
    | some v, none =>
        if base ∈ existing then .error (.nameCollision base)
        else .ok [⟨base, t, v⟩]
    | none, some es =>
        if es.any (fun ev => decide (elementName base ev.1 ∈ existing)) then
          .error (.nameCollision base)
        else .ok (es.map fun ev => ⟨elementName base ev.1, t, ev.2⟩)
    | none, none => .error (.missingValue base)

/-- Modelled from the spec: §4.1 resolving a whole node configuration:
entries are resolved in order, each resolved Parameter becoming an
attribute of the owning node (so later entries collide with it), and
the first failure aborts the whole resolve step. -/
def resolveConfig (attrs : List String) :
    List (String × ParamSpec) → Except ConfigError (List Parameter)
  | [] => .ok []
  | (base, s) :: rest =>
      match resolveSpec attrs base s with
      | .error e => .error e
      | .ok ps =>
          match resolveConfig (attrs ++ ps.map Parameter.name) rest with
          | .error e => .error e
          | .ok tail => .ok (ps ++ tail)

theorem elementName_ne_base (base elem : String) : elementName base elem ≠ base := by
  intro h
  have hlen := congrArg String.length h
  rw [elementName, String.length_append, String.length_append] at hlen
  have h1 : String.length "_" = 1 := by decide
  omega

/-- C6 (confirmed): a spec entry declaring an `elements` mapping with k
element names resolves to exactly k Parameters, one per element, named
`{base}_{element}` and carrying that element's initial value, and to
zero Parameters named `{base}`. -/
theorem c6_element_expansion (existing : List String) (base : String)
    (t : PType) (es : List (String × ConfVal))
    (hnc : ∀ ev ∈ es, elementName base ev.1 ∉ existing) :
    resolveSpec existing base ⟨none, some es, some t⟩ =
      .ok (es.map fun ev => ⟨elementName base ev.1, t, ev.2⟩)
    ∧ (es.map fun ev => (⟨elementName base ev.1, t, ev.2⟩ : Parameter)).length
        = es.length
    ∧ ∀ p ∈ (es.map fun ev => (⟨elementName base ev.1, t, ev.2⟩ : Parameter)),
        p.name ≠ base := by
  refine ⟨?_, List.length_map _ _, ?_⟩
  · rw [resolveSpec]
    dsimp only
    rw [if_neg]
    simp only [List.any_eq_true, decide_eq_true_eq, not_exists, not_and]
    intro ev hev
    exact hnc ev hev
  · intro p hp
    rw [List.mem_map] at hp
    obtain ⟨ev, _, hev⟩ := hp
    rw [← hev]
    exact elementName_ne_base base ev.1

/-- The tutorial's element mapping {'g1': 0, 'g2': 0.1}. -/
def gElems : List (String × ConfVal) := [("g1", .num 0), ("g2", .num (1/10))]

/-- C6 witness: the spec `elements: {'g1': 0, 'g2': 0.1}` under base
name "vSquare" resolves to exactly the Parameters vSquare_g1 and
vSquare_g2. -/
theorem c6_element_expansion_witness :
    resolveSpec [] "vSquare" ⟨none, some gElems, some .voltage⟩ =
      .ok (gElems.map fun ev => ⟨elementName "vSquare" ev.1, .voltage, ev.2⟩) :=
  (c6_element_expansion [] "vSquare" .voltage gElems (by simp)).1

theorem resolveSpec_ok_wf {existing : List String} {base : String}
    {s : ParamSpec} {ps : List Parameter}
    (h : resolveSpec existing base s = .ok ps) :
    s.type ≠ none ∧ ¬ (s.value.isSome ∧ s.elements.isSome) := by
  rw [resolveSpec] at h
  rcases htype : s.type with _ | t <;> rw [htype] at h
  · exact absurd h (by simp)
  · rcases hv : s.value with _ | v <;> rcases he : s.elements with _ | es <;>
      rw [hv, he] at h <;> simp_all

/-- C9 (confirmed): resolution fails with `ConfigError` when a spec
carries both `value` and `elements`, when the required `type` is
missing, or when the produced name collides with an existing
Parameter/attribute of the owning node (shown for both the scalar and
the element forms); and the failure aborts the whole resolve step for
the node: whenever the node's resolve succeeds, every entry was
well-formed. -/
theorem c9_config_errors (existing : List String) (base : String)
    (s : ParamSpec) :
    (s.type = none → resolveSpec existing base s = .error (.missingType base))
    ∧ (∀ t, s.type = some t → s.value.isSome → s.elements.isSome →
        resolveSpec existing base s = .error (.valueAndElements base))
    ∧ (∀ t v, s.type = some t → s.value = some v → s.elements = none →
        base ∈ existing →
        resolveSpec existing base s = .error (.nameCollision base))
    ∧ (∀ t es, s.type = some t → s.value = none → s.elements = some es →
        (∃ ev ∈ es, elementName base ev.1 ∈ existing) →
        resolveSpec existing base s = .error (.nameCollision base))
    ∧ (∀ (conf : List (String × ParamSpec)) (attrs : List String)
        (res : List Parameter), resolveConfig attrs conf = .ok res →
        ∀ entry ∈ conf, entry.2.type ≠ none ∧
          ¬ (entry.2.value.isSome ∧ entry.2.elements.isSome)) := by
  refine ⟨?_, ?_, ?_, ?_, ?_⟩
  · intro htype
    rw [resolveSpec, htype]
  · intro t htype hval helem
    rw [Option.isSome_iff_exists] at hval helem
    obtain ⟨v, hv⟩ := hval
    obtain ⟨es, he⟩ := helem
    rw [resolveSpec, htype, hv, he]
  · intro t v htype hv he hbase
    rw [resolveSpec, htype, hv, he]
    dsimp only
    rw [if_pos hbase]
  · intro t es htype hv he hcol
    rw [resolveSpec, htype, hv, he]
    dsimp only
    rw [if_pos]
    simp only [List.any_eq_true, decide_eq_true_eq]
    exact hcol
  · intro conf
    induction conf with
    | nil => intro attrs res _ entry hentry; simp at hentry
    | cons hd tail ih =>
        intro attrs res hok entry hentry
        rw [resolveConfig] at hok
        rcases hhd : resolveSpec attrs hd.1 hd.2 with e | ps
        · rw [hhd] at hok
          exact absurd hok (by simp)
        · rw [hhd] at hok
          dsimp only at hok
          rcases htail : resolveConfig (attrs ++ ps.map Parameter.name) tail
              with e | tl
          · rw [htail] at hok
            exact absurd hok (by simp)
          · rcases List.mem_cons.mp hentry with hcase | hcase
            · subst hcase
              exact resolveSpec_ok_wf hhd
            · exact ih _ _ htail entry hcase

/-- C9 witness: a spec carrying both `value` and `elements` is rejected
with `ConfigError` at resolution time. -/
theorem c9_config_errors_witness :
    resolveSpec [] "amplitude"
        ⟨some (.num 0), some [("g1", .num 0)], some .voltage⟩ =
      .error (.valueAndElements "amplitude") :=
  (c9_config_errors [] "amplitude"
    ⟨some (.num 0), some [("g1", .num 0)], some .voltage⟩).2.1
    .voltage rfl rfl rfl

/-- Modelled from the spec: §3/§4.2 the sequence-node tree: a leaf
sub-sequence emits its own concrete operations; a container emits its
children in declaration order and nothing of its own. -/
inductive SeqTree where
  | leaf (name : String) (ops : QuaStmt)
  | container (name : String) (children : List SeqTree)

mutual

/-- Modelled from the spec: §4.2 emission — a leaf emits its own logic,
a container emits exactly its children, in declaration order. -/
def emitTree : SeqTree → QuaStmt
  | .leaf _ ops => ops
  | .container _ cs => emitTrees cs

/-- Emission of a list of child nodes, in order. -/
def emitTrees : List SeqTree → QuaStmt
  | [] => .skip
  | t :: ts => .seq (emitTree t) (emitTrees ts)

end

theorem emitTrees_eq_seqAll (cs : List SeqTree) :
    emitTrees cs = seqAll (cs.map emitTree) := by
  induction cs with
  | nil => rfl
  | cons t ts ih => rw [emitTrees, ih]; rfl

/-- The emission protocol as a relation: a leaf emits its operations; a
container emits one output per child, in declaration order. -/
inductive EmitsTree : SeqTree → QuaStmt → Prop where
  | leaf (n : String) (ops : QuaStmt) : EmitsTree (.leaf n ops) ops
  | container (n : String) (cs : List SeqTree) (outs : List QuaStmt)
      (hlen : outs.length = cs.length)
      (hall : ∀ i (h1 : i < cs.length) (h2 : i < outs.length),
        EmitsTree cs[i] outs[i]) :
      EmitsTree (.container n cs) (seqAll outs)

theorem emitsTree_det {t : SeqTree} {s1 : QuaStmt} (h1 : EmitsTree t s1) :
    ∀ {s2 : QuaStmt}, EmitsTree t s2 → s1 = s2 := by
  induction h1 with
  | leaf n ops =>
      intro s2 h2
      cases h2
      rfl
  | container n cs outs hlen hall ih =>
      intro s2 h2
      cases h2 with
      | container _ _ outs2 hlen2 hall2 =>
          have houts : outs = outs2 := by
            apply List.ext_getElem (by omega)
            intro i hi1 hi2
            exact ih i (by omega) (by omega) (hall2 i (by omega) (by omega))
          rw [houts]

theorem emitsTree_total (t : SeqTree) : EmitsTree t (emitTree t) := by
  have H : ∀ (n : ℕ) (u : SeqTree), sizeOf u ≤ n → EmitsTree u (emitTree u) := by
    intro n
    induction n with
    | zero =>
        intro u hu
        cases u <;> simp at hu
    | succ k ih =>
        intro u hu
        cases u with
        | leaf nm ops =>
            rw [emitTree]
            exact EmitsTree.leaf nm ops
        | container nm cs =>
            rw [emitTree, emitTrees_eq_seqAll]
            refine EmitsTree.container nm cs (cs.map emitTree)
              (List.length_map _ _) ?_
            intro i h1 h2
            rw [List.getElem_map]
            apply ih
            have hmem : cs[i] ∈ cs := List.getElem_mem h1
            have hlt : sizeOf cs[i] < sizeOf cs := List.sizeOf_lt_of_mem hmem
            simp only [SeqTree.container.sizeOf_spec] at hu
            omega
  exact H (sizeOf t) t (Nat.le_refl _)

/-- Modelled from the spec: §4.5 `compile`/`get_qua_program` — the whole
tree emission inside the sweep scaffolding, wrapped in a perpetual loop
with a synchronization pause at its top. -/
def get_qua_program (root : SeqTree) (sweeps : List SweepAxis) : QuaStmt :=
  .infiniteLoop (.seq .pause (nestSweeps 0 sweeps (emitTree root)))

/-- Compilation as a relation: some emission of the tree, wrapped in
the sweep scaffolding, the pause and the perpetual loop. -/
inductive CompilesTo : SeqTree → List SweepAxis → QuaStmt → Prop where
  | wrap {root : SeqTree} {sweeps : List SweepAxis} {body : QuaStmt} :
      EmitsTree root body →
      CompilesTo root sweeps (.infiniteLoop (.seq .pause (nestSweeps 0 sweeps body)))

/-- C7 (confirmed): compilation is a deterministic function of its
inputs — any two programs compiled from the same tree and the same
sweep declaration are identical, and equal to the program the compile
function produces. -/
theorem c7_compile_deterministic (root : SeqTree) (sweeps : List SweepAxis)
    (p q : QuaStmt) (hp : CompilesTo root sweeps p)
    (hq : CompilesTo root sweeps q) :
    p = q ∧ p = get_qua_program root sweeps := by
  cases hp with
  | wrap hb =>
      constructor
      · cases hq with
        | wrap hb2 => rw [emitsTree_det hb hb2]
      · rw [emitsTree_det hb (emitsTree_total root), get_qua_program]

/-- A concrete sequence tree: a container holding one pulse leaf. -/
def sampleTree : SeqTree :=
  .container "dummy_sequence" [.leaf "square_pulse" (.play "square_pulse")]

/-- C7 witness: compiling the concrete tree with the concrete axis twice
yields the same program, namely the compile function's output. -/
theorem c7_compile_deterministic_witness :
    get_qua_program sampleTree [goodAxisA] =
        get_qua_program sampleTree [goodAxisA] ∧
      get_qua_program sampleTree [goodAxisA] =
        get_qua_program sampleTree [goodAxisA] :=
  c7_compile_deterministic sampleTree [goodAxisA] _ _
    (.wrap (emitsTree_total sampleTree)) (.wrap (emitsTree_total sampleTree))

/-- The fixed separator joining the chain of owning-node names into an
Observable's channel name. -/
def channelSep : String := "__"

/-- Modelled from the spec: §4.5 — an Observable's unique channel name
is derived by joining the chain of its owning-node names with the fixed
separator. -/
def channelName : List String → String
  | [] => ""
  | [x] => x
  | x :: rest => x ++ channelSep ++ channelName rest

/-- Modelled from the spec: §7 `CompileError` — an invariant violation
detected at final assembly. -/
inductive CompileError where
  | duplicateChannel
deriving Repr, DecidableEq

/-- Modelled from the spec: §4.5 final assembly of the result-streaming
section: derive every Observable's channel name and fail with
`CompileError` when two Observables resolve to the same name. -/
def assembleChannels (obsPaths : List (List String)) :
    Except CompileError (List String) :=
  if (obsPaths.map channelName).Nodup then .ok (obsPaths.map channelName)
  else .error .duplicateChannel

theorem string_append_left_cancel {a b c : String} (h : a ++ b = a ++ c) :
    b = c := by
  have hd := congrArg String.data h
  rw [String.data_append, String.data_append] at hd
  exact String.ext (List.append_cancel_left hd)

theorem string_append_right_cancel {a b c : String} (h : a ++ c = b ++ c) :
    a = b := by
  have hd := congrArg String.data h
  rw [String.data_append, String.data_append] at hd
  exact String.ext (List.append_cancel_right hd)

theorem channelName_cons (x : String) (l : List String) (hl : l ≠ []) :
    channelName (x :: l) = x ++ channelSep ++ channelName l := by
  cases l with
  | nil => exact absurd rfl hl
  | cons y rest => rfl

theorem channelName_distinct (pre : List String) (s1 s2 leafName : String)
    (hne : s1 ≠ s2) :
    channelName (pre ++ [s1, leafName]) ≠ channelName (pre ++ [s2, leafName]) := by
  induction pre with
  | nil =>
      intro h
      simp only [List.nil_append] at h
      rw [channelName_cons s1 [leafName] (by simp),
        channelName_cons s2 [leafName] (by simp)] at h
      exact hne (string_append_right_cancel
        (string_append_right_cancel h))
  | cons x pre' ih =>
      intro h
      rw [List.cons_append, List.cons_append,
        channelName_cons x (pre' ++ [s1, leafName]) (by simp),
        channelName_cons x (pre' ++ [s2, leafName]) (by simp),
        String.append_assoc, String.append_assoc] at h
      exact ih (string_append_left_cancel (string_append_left_cancel h))

/-- C8 (confirmed): channel names are derived by joining the full chain
of owning-node names with the fixed separator, so two Observables whose
paths agree except for the owning Signal's name (in particular, a
shared local name under distinct Signals) get distinct channel names;
and final assembly fails with `CompileError` exactly when two
Observables resolve to the same full channel name. -/
theorem c8_channel_naming :
    (∀ (pre : List String) (s1 s2 leafName : String), s1 ≠ s2 →
      channelName (pre ++ [s1, leafName]) ≠
        channelName (pre ++ [s2, leafName]))
    ∧ (∀ obsPaths : List (List String),
        (∃ e, assembleChannels obsPaths = .error e) ↔
          ¬ (obsPaths.map channelName).Nodup) := by
  refine ⟨channelName_distinct, fun obsPaths => ?_⟩
  by_cases hnd : (obsPaths.map channelName).Nodup
  · rw [assembleChannels, if_pos hnd]
    simp [hnd]
  · rw [assembleChannels, if_neg hnd]
    exact iff_of_true ⟨.duplicateChannel, rfl⟩ hnd

/-- C8 witness: the Observables "IQ" under the distinct Signals
"sensor1" and "sensor2" of the same read sequence get distinct channel
names. -/
theorem c8_channel_naming_witness :
    channelName (["qm_driver", "readout"] ++ ["sensor1", "IQ"]) ≠
      channelName (["qm_driver", "readout"] ++ ["sensor2", "IQ"]) :=
  c8_channel_naming.1 ["qm_driver", "readout"] "sensor1" "sensor2" "IQ"
    (by decide)

end Arbok
